import Mathlib

/-!
Verification of the stick-figure repository: a shallow embedding of the
skeleton data model, the pose interpolator, the pose serializer, the
physics toy and the procedural animators, together with proofs of the
specified properties.

Python dictionaries (string-keyed, insertion ordered, unique keys) are
embedded as association lists `List (String × α)`; `dlookup` is dict
lookup (first match) and `dictSet` is dict assignment (overwrite in
place when the key is present, append otherwise), exactly the Python
semantics.  Machine floats are embedded as exact rationals; `np.sin`,
`np.cos` and the float constant `np.pi` are external library values and
are passed in as function/value parameters.
-/

namespace StickFig

/-- A 2D position, the value type of the joint dictionary. -/
abbrev Pos : Type := ℚ × ℚ

/-- The joint dictionary of a figure: name to position, insertion ordered. -/
abbrev Joints : Type := List (String × Pos)

/-- Dictionary lookup: the value at the first matching key, if any. -/
def dlookup {α : Type} : List (String × α) → String → Option α
  | [], _ => none
  | (k, w) :: rest, n => if k = n then some w else dlookup rest n

/-- Dictionary assignment: overwrite the first matching key in place,
append a new entry when the key is absent (Python dict assignment). -/
def dictSet {α : Type} : List (String × α) → String → α → List (String × α)
  | [], n, v => [(n, v)]
  | (k, w) :: rest, n, v => if k = n then (k, v) :: rest else (k, w) :: dictSet rest n v

/-- The key list of a dictionary, in insertion order. -/
def keys {α : Type} (d : List (String × α)) : List String := d.map Prod.fst

/-- The default joint dictionary built by the StickFigure constructor
(stick_figure.py), 15 named joints with their literal coordinates. -/
def defaultJoints : Joints :=
  [("head", (0, 17/10)),
   ("neck", (0, 14/10)),
   ("left_shoulder", (-3/10, 13/10)),
   ("right_shoulder", (3/10, 13/10)),
   ("left_hip", (-2/10, 5/10)),
   ("right_hip", (2/10, 5/10)),
   ("spine_mid", (0, 9/10)),
   ("left_elbow", (-5/10, 9/10)),
   ("left_wrist", (-6/10, 5/10)),
   ("right_elbow", (5/10, 9/10)),
   ("right_wrist", (6/10, 5/10)),
   ("left_knee", (-2/10, 0)),
   ("left_ankle", (-2/10, -5/10)),
   ("right_knee", (2/10, 0)),
   ("right_ankle", (2/10, -5/10))]

/-- The fixed bone connection list built by the StickFigure constructor. -/
def skeleton_connections : List (String × String) :=
  [("head", "neck"),
   ("neck", "spine_mid"),
   ("neck", "left_shoulder"),
   ("neck", "right_shoulder"),
   ("spine_mid", "left_hip"),
   ("spine_mid", "right_hip"),
   ("left_hip", "right_hip"),
   ("left_shoulder", "left_elbow"),
   ("left_elbow", "left_wrist"),
   ("right_shoulder", "right_elbow"),
   ("right_elbow", "right_wrist"),
   ("left_hip", "left_knee"),
   ("left_knee", "left_ankle"),
   ("right_hip", "right_knee"),
   ("right_knee", "right_ankle")]

/-- StickFigure.update_joint: overwrite the position when the name is a
known joint, otherwise print a warning and leave the dictionary as is. -/
def update_joint (j : Joints) (name : String) (pos : Pos) : Joints :=
  if (dlookup j name).isSome then dictSet j name pos else j

/-- PoseSequence.interpolate: for each joint of pose1 in order, look the
name up in pose2 (a missing name raises KeyError, embedded as none) and
emit the componentwise linear blend at parameter t. -/
def interpolate : Joints → Joints → ℚ → Option Joints
  | [], _, _ => some []
  | (n, p) :: rest, pose2, t =>
    match dlookup pose2 n with
    | none => none
    | some q =>
      match interpolate rest pose2 t with
      | none => none
      | some r => some ((n, (p.1 + (q.1 - p.1) * t, p.2 + (q.2 - p.2) * t)) :: r)

/-- JSON values as produced by json.dump/json.load. -/
inductive JVal : Type where
  | num : ℚ → JVal
  | str : String → JVal
  | bool : Bool → JVal
  | null : JVal
  | arr : List JVal → JVal
  | obj : List (String × JVal) → JVal

/-- The per-joint records written by PoseSerializer.save_pose: each joint
name mapped to an object with fields x and y. -/
def savedItems (joints : Joints) : List (String × JVal) :=
  joints.map fun kv => (kv.1, JVal.obj [("x", JVal.num kv.2.1), ("y", JVal.num kv.2.2)])

/-- PoseSerializer.save_pose: the JSON record with the joints mapping and
the connection list (writing the text to disk is external file I/O). -/
def save_pose (joints : Joints) (conns : List (String × String)) : JVal :=
  JVal.obj
    [("joints", JVal.obj (savedItems joints)),
     ("connections", JVal.arr (conns.map fun ab => JVal.arr [JVal.str ab.1, JVal.str ab.2]))]

/-- The joint dictionary of a freshly constructed StickFigure as it looks
after json coordinates have been stored into it: positions are arbitrary
JSON values in Python, the defaults being numbers. -/
def jdefaultJoints : List (String × (JVal × JVal)) :=
  defaultJoints.map fun kv => (kv.1, (JVal.num kv.2.1, JVal.num kv.2.2))

/-- The loading loop of PoseSerializer.load_pose: for each name in the
saved joints mapping, read fields x and y of its coordinate object (a
missing field or a non-object raises, embedded as none) and assign the
two values, whatever they are, into the figure dictionary. -/
def load_items : List (String × JVal) → List (String × (JVal × JVal)) →
    Option (List (String × (JVal × JVal)))
  | [], sf => some sf
  | (n, c) :: rest, sf =>
    match c with
    | JVal.obj coords =>
      match dlookup coords "x", dlookup coords "y" with
      | some xv, some yv => load_items rest (dictSet sf n (xv, yv))
      | _, _ => none
    | _ => none

/-- PoseSerializer.load_pose: read the joints field of the record (a
missing field or a non-object raises, embedded as none), construct a
default StickFigure and overwrite it entry by entry. -/
def load_pose (data : JVal) : Option (List (String × (JVal × JVal))) :=
  match data with
  | JVal.obj fields =>
    match dlookup fields "joints" with
    | some (JVal.obj items) => load_items items jdefaultJoints
    | some _ => none
    | none => none
  | _ => none

/-- The joint names appearing in the joints mapping of a saved record. -/
def recordJointNames : JVal → List String
  | JVal.obj fields =>
    match dlookup fields "joints" with
    | some (JVal.obj items) => keys items
    | some _ => []
    | none => []
  | _ => []

/-- The key list of the figure produced by loading a record, when loading
succeeds. -/
def keysAfterLoad (data : JVal) : Option (List String) :=
  (load_pose data).map keys

/-- PhysicsSimulator.gravity, the constant -0.02. -/
def gravity : ℚ := -2/100

/-- The bounce damping factor 0.7 of PhysicsSimulator.apply_constraints. -/
def damping : ℚ := 7/10

/-- A per-joint constraint entry: optional y bounds, mirroring the
presence checks for the y_min and y_max dictionary fields. -/
structure Constraint : Type where
  y_min : Option ℚ
  y_max : Option ℚ

/-- PhysicsSimulator.build_constraints: the fixed constraint table. -/
def build_constraints : List (String × Constraint) :=
  [("left_ankle", ⟨some (-8/10), some (5/10)⟩),
   ("right_ankle", ⟨some (-8/10), some (5/10)⟩),
   ("head", ⟨some (5/10), some (25/10)⟩)]

/-- The velocity dictionary built by the PhysicsSimulator constructor:
one zero vector per joint name. -/
def init_velocities (joints : Joints) : Joints :=
  joints.map fun kv => (kv.1, ((0 : ℚ), (0 : ℚ)))

/-- PhysicsSimulator.apply_gravity: for every joint name, add gravity to
the vertical velocity component (a name without a velocity entry would
raise KeyError, embedded as none). -/
def apply_gravity : List String → Joints → Option Joints
  | [], vels => some vels
  | n :: rest, vels =>
    match dlookup vels n with
    | none => none
    | some v => apply_gravity rest (dictSet vels n (v.1, v.2 + gravity))

/-- The position integration loop of PhysicsSimulator.update: every joint
position is moved by its velocity once. -/
def integrate_positions : Joints → Joints → Option Joints
  | [], _ => some []
  | (n, p) :: rest, vels =>
    match dlookup vels n with
    | none => none
    | some v =>
      match integrate_positions rest vels with
      | none => none
      | some r => some ((n, (p.1 + v.1, p.2 + v.2)) :: r)

/-- The y_max clause of PhysicsSimulator.apply_constraints: hard clamp,
no velocity change. -/
def clampMax (c : Constraint) (y : ℚ) : ℚ :=
  match c.y_max with
  | some yM => if y > yM then yM else y
  | none => y

/-- One iteration of PhysicsSimulator.apply_constraints: clamp the joint
to y_min (reflecting the vertical velocity with the damping factor when
violated), then clamp to y_max, then store the position back. -/
def apply_constraint (joints vels : Joints) (n : String) (c : Constraint) :
    Option (Joints × Joints) :=
  match dlookup joints n with
  | none => none
  | some p =>
    match c.y_min with
    | some ym =>
      if p.2 < ym then
        match dlookup vels n with
        | none => none
        | some v =>
          some (dictSet joints n (p.1, clampMax c ym), dictSet vels n (v.1, -v.2 * damping))
      else some (dictSet joints n (p.1, clampMax c p.2), vels)
    | none => some (dictSet joints n (p.1, clampMax c p.2), vels)

/-- PhysicsSimulator.apply_constraints: the iteration over the constraint
table. -/
def apply_constraints : List (String × Constraint) → Joints → Joints →
    Option (Joints × Joints)
  | [], joints, vels => some (joints, vels)
  | (n, c) :: rest, joints, vels =>
    match apply_constraint joints vels n c with
    | none => none
    | some jv => apply_constraints rest jv.1 jv.2

/-- PhysicsSimulator.update: apply gravity to every velocity, move every
position by its velocity, then apply the constraint table. -/
def physics_update (cs : List (String × Constraint)) (joints vels : Joints) :
    Option (Joints × Joints) :=
  match apply_gravity (keys joints) vels with
  | none => none
  | some v2 =>
    match integrate_positions joints v2 with
    | none => none
    | some j2 => apply_constraints cs j2 v2

/-- The position transform of one constraint application, as a value. -/
def constrainedPos (c : Constraint) (p : Pos) : Pos :=
  match c.y_min with
  | some ym => if p.2 < ym then (p.1, clampMax c ym) else (p.1, clampMax c p.2)
  | none => (p.1, clampMax c p.2)

/-- The velocity transform of one constraint application, as a value. -/
def constrainedVel (c : Constraint) (p v : Pos) : Pos :=
  match c.y_min with
  | some ym => if p.2 < ym then (v.1, -v.2 * damping) else v
  | none => v

/-- The per-joint step the specification describes: the velocity
integrates gravity, the position integrates the velocity once, then the
constraint of the joint, if any, is applied (y_min clamp with damped
velocity reflection first, then hard y_max clamp). -/
def specJointStep (c : Option Constraint) (p v : Pos) : Pos × Pos :=
  let v1 : Pos := (v.1, v.2 + gravity)
  let p1 : Pos := (p.1 + v1.1, p.2 + v1.2)
  match c with
  | none => (p1, v1)
  | some c => (constrainedPos c p1, constrainedVel c p1 v1)

/-- The elbow vertical amplitude 0.2 of StickFigure.animate_wave. -/
def waveElbowAmpY : ℚ := 2/10

/-- The wrist horizontal amplitude 0.1 of StickFigure.animate_wave. -/
def waveWristAmpX : ℚ := 1/10

/-- The wrist vertical amplitude 0.4 of StickFigure.animate_wave. -/
def waveWristAmpY : ℚ := 4/10

/-- The per-frame update closure of StickFigure.animate_wave: offset the
right elbow and wrist from their captured original positions by
sinusoidal terms of the phase angle (np.sin and np.cos are external
library functions, passed in as parameters). -/
def waveFrame (sinf cosf : ℚ → ℚ) (θ : ℚ) (oe ow : Pos) (j : Joints) : Joints :=
  let elbow_y := oe.2 + waveElbowAmpY * sinf θ
  let wrist_y := ow.2 + waveWristAmpY * sinf θ
  let wrist_x := ow.1 + waveWristAmpX * cosf θ
  update_joint (update_joint j "right_elbow" (oe.1, elbow_y)) "right_wrist" (wrist_x, wrist_y)

/-- The phase angles of the animation loops: frame/frames times 4 pi for
each frame index (np.pi is an external float constant, a parameter). -/
def frame_angles (piv : ℚ) (frames : ℕ) : List ℚ :=
  (List.range frames).map fun f => ((f : ℚ) / (frames : ℚ)) * 4 * piv

/-- StickFigure.animate_wave: capture the original right elbow and wrist
positions (KeyError if absent, embedded as none), run the frame updates,
then restore the two captured positions by plain dict assignment. -/
def animate_wave (sinf cosf : ℚ → ℚ) (piv : ℚ) (frames : ℕ) (j : Joints) : Option Joints :=
  match dlookup j "right_elbow", dlookup j "right_wrist" with
  | some oe, some ow =>
    let j2 := (frame_angles piv frames).foldl (fun acc θ => waveFrame sinf cosf θ oe ow acc) j
    some (dictSet (dictSet j2 "right_elbow" oe) "right_wrist" ow)
  | _, _ => none

/-- The per-frame update closure of StickFigure.animate_walk: sinusoidal
leg offsets in antiphase, ankle x sway, and wrist swing coupled to the
opposite leg, all relative to the captured original positions. -/
def walkFrame (sinf : ℚ → ℚ) (piv θ : ℚ) (lk la rk ra lw rw : Pos) (j : Joints) : Joints :=
  let leftLegAngle := θ
  let rightLegAngle := θ + piv
  let left_knee_y := lk.2 + 1/10 * sinf leftLegAngle
  let left_ankle_y := la.2 + 15/100 * sinf leftLegAngle
  let left_ankle_x := la.1 + 5/100 * sinf leftLegAngle
  let right_knee_y := rk.2 + 1/10 * sinf rightLegAngle
  let right_ankle_y := ra.2 + 15/100 * sinf rightLegAngle
  let right_ankle_x := ra.1 + 5/100 * sinf rightLegAngle
  let leftArmAngle := rightLegAngle
  let rightArmAngle := leftLegAngle
  let left_wrist_y := lw.2 + 1/10 * sinf leftArmAngle
  let right_wrist_y := rw.2 + 1/10 * sinf rightArmAngle
  update_joint (update_joint (update_joint (update_joint (update_joint (update_joint j
    "left_knee" (lk.1, left_knee_y))
    "left_ankle" (left_ankle_x, left_ankle_y))
    "right_knee" (rk.1, right_knee_y))
    "right_ankle" (right_ankle_x, right_ankle_y))
    "left_wrist" (lw.1, left_wrist_y))
    "right_wrist" (rw.1, right_wrist_y)

/-- StickFigure.animate_walk: capture the eight original limb positions
(KeyError if absent, embedded as none), run the frame updates, then
restore all eight captured positions by plain dict assignment in the
capture order. -/
def animate_walk (sinf : ℚ → ℚ) (piv : ℚ) (frames : ℕ) (j : Joints) : Option Joints :=
  match dlookup j "left_knee", dlookup j "left_ankle", dlookup j "right_knee",
        dlookup j "right_ankle", dlookup j "left_elbow", dlookup j "left_wrist",
        dlookup j "right_elbow", dlookup j "right_wrist" with
  | some lk, some la, some rk, some ra, some le, some lw, some re, some rw =>
    let j2 := (frame_angles piv frames).foldl
      (fun acc θ => walkFrame sinf piv θ lk la rk ra lw rw acc) j
    some (dictSet (dictSet (dictSet (dictSet (dictSet (dictSet (dictSet (dictSet j2
      "left_knee" lk) "left_ankle" la) "right_knee" rk) "right_ankle" ra)
      "left_elbow" le) "left_wrist" lw) "right_elbow" re) "right_wrist" rw)
  | _, _, _, _, _, _, _, _ => none

theorem dlookup_isSome_iff_mem {α : Type} (d : List (String × α)) (n : String) :
    (dlookup d n).isSome = true ↔ n ∈ keys d := by
  induction d with
  | nil => simp [dlookup, keys]
  | cons kw rest ih =>
    obtain ⟨k, w⟩ := kw
    by_cases h : k = n
    · subst h; simp [dlookup, keys]
    · simp [dlookup, keys, h, ih, Ne.symm h]

theorem dlookup_eq_none_iff_not_mem {α : Type} (d : List (String × α)) (n : String) :
    dlookup d n = none ↔ n ∉ keys d := by
  rw [← dlookup_isSome_iff_mem]
  cases dlookup d n <;> simp

theorem dlookup_dictSet_self {α : Type} (d : List (String × α)) (n : String) (v : α) :
    dlookup (dictSet d n v) n = some v := by
  induction d with
  | nil => simp [dictSet, dlookup]
  | cons kw rest ih =>
    obtain ⟨k, w⟩ := kw
    by_cases h : k = n
    · subst h; simp [dictSet, dlookup]
    · simp [dictSet, dlookup, h, ih]

theorem dlookup_dictSet_ne {α : Type} (d : List (String × α)) (n m : String) (v : α)
    (h : m ≠ n) : dlookup (dictSet d n v) m = dlookup d m := by
  induction d with
  | nil =>
    have hnm : ¬ n = m := fun hh => h hh.symm
    simp [dictSet, dlookup, hnm]
  | cons kw rest ih =>
    obtain ⟨k, w⟩ := kw
    by_cases hk : k = n
    · subst hk
      have hkm : ¬ k = m := fun hh => h hh.symm
      simp [dictSet, dlookup, hkm]
    · by_cases hkm : k = m
      · subst hkm
        simp [dictSet, dlookup, hk]
      · simp [dictSet, dlookup, hk, hkm, ih]

theorem keys_dictSet_of_mem {α : Type} (d : List (String × α)) (n : String) (v : α)
    (h : n ∈ keys d) : keys (dictSet d n v) = keys d := by
  induction d with
  | nil => simp [keys] at h
  | cons kw rest ih =>
    obtain ⟨k, w⟩ := kw
    by_cases hk : k = n
    · subst hk; simp [dictSet, keys]
    · have hr : n ∈ keys rest := by
        simp only [keys, List.map_cons, List.mem_cons] at h
        rcases h with h | h
        · exact absurd h.symm hk
        · exact h
      have hstep : keys (dictSet ((k, w) :: rest) n v) = k :: keys (dictSet rest n v) := by
        simp [dictSet, keys, hk]
      rw [hstep, ih hr]
      simp [keys]

theorem interpolate_spec (A B : Joints) (t : ℚ) (h : ∀ n ∈ keys A, n ∈ keys B) :
    ∃ C, interpolate A B t = some C ∧ keys C = keys A ∧
      ∀ m, dlookup C m = (dlookup A m).bind fun p => (dlookup B m).map fun q =>
        ((p.1 + (q.1 - p.1) * t, p.2 + (q.2 - p.2) * t) : Pos) := by
  induction A with
  | nil =>
    refine ⟨[], rfl, rfl, ?_⟩
    intro m
    simp [dlookup]
  | cons np rest ih =>
    obtain ⟨n, p⟩ := np
    have hn : n ∈ keys B := h n (by simp [keys])
    obtain ⟨q, hq⟩ : ∃ q, dlookup B n = some q := by
      have := (dlookup_isSome_iff_mem B n).mpr hn
      cases hbq : dlookup B n with
      | none => rw [hbq] at this; simp at this
      | some q => exact ⟨q, rfl⟩
    obtain ⟨r, hr, hkr, hlr⟩ := ih (fun m hm => h m (by simp [keys]; right; simpa [keys] using hm))
    refine ⟨(n, (p.1 + (q.1 - p.1) * t, p.2 + (q.2 - p.2) * t)) :: r, ?_, ?_, ?_⟩
    · simp [interpolate, hq, hr]
    · simp [keys] at hkr ⊢
      exact hkr
    · intro m
      by_cases hm : n = m
      · subst hm
        simp [dlookup, hq]
      · simp [dlookup, hm, hlr m]

theorem interpolate_none_of_missing (A B : Joints) (t : ℚ) (n : String)
    (hn : n ∈ keys A) (hB : dlookup B n = none) : interpolate A B t = none := by
  induction A with
  | nil => simp [keys] at hn
  | cons mp rest ih =>
    obtain ⟨m, p⟩ := mp
    by_cases hm : m = n
    · subst hm
      simp [interpolate, hB]
    · have hr : n ∈ keys rest := by
        simp [keys] at hn
        rcases hn with hn | hn
        · exact absurd hn.symm hm
        · simpa [keys] using hn
      cases hq : dlookup B m with
      | none => simp [interpolate, hq]
      | some q => simp [interpolate, hq, ih hr]

/-- C2: for poses with identical key sets and any rational t, interpolate
returns the pose mapping each joint of pose1 to the componentwise blend
A + (B - A) * t; interpolating a pose with itself gives the pose back,
t = 0 gives pose1, t = 1 gives pose2 pointwise, t = 1/2 the midpoint,
and out-of-range t extrapolates (the result exists for every t). -/
theorem c2_interpolate_linear (A B : Joints) (t : ℚ)
    (hAB : ∀ n ∈ keys A, n ∈ keys B) (hBA : ∀ n ∈ keys B, n ∈ keys A) :
    (∃ C, interpolate A B t = some C ∧ keys C = keys A ∧
       ∀ m p q, dlookup A m = some p → dlookup B m = some q →
         dlookup C m = some (p.1 + (q.1 - p.1) * t, p.2 + (q.2 - p.2) * t)) ∧
    (∃ C, interpolate A A t = some C ∧ keys C = keys A ∧
       ∀ m, dlookup C m = dlookup A m) ∧
    (∃ C, interpolate A B 0 = some C ∧ ∀ m, dlookup C m = dlookup A m) ∧
    (∃ C, interpolate A B 1 = some C ∧ ∀ m, dlookup C m = dlookup B m) ∧
    (∃ C, interpolate A B (1/2) = some C ∧
       ∀ m p q, dlookup A m = some p → dlookup B m = some q →
         dlookup C m = some ((p.1 + q.1) / 2, (p.2 + q.2) / 2)) := by
  refine ⟨?_, ?_, ?_, ?_, ?_⟩
  · obtain ⟨C, hC, hk, hl⟩ := interpolate_spec A B t hAB
    refine ⟨C, hC, hk, ?_⟩
    intro m p q hp hq
    rw [hl m, hp, hq]
    rfl
  · obtain ⟨C, hC, hk, hl⟩ := interpolate_spec A A t (fun n hn => hn)
    refine ⟨C, hC, hk, ?_⟩
    intro m
    rw [hl m]
    cases hp : dlookup A m with
    | none => rfl
    | some p =>
      obtain ⟨p1, p2⟩ := p
      simp
  · obtain ⟨C, hC, hk, hl⟩ := interpolate_spec A B 0 hAB
    refine ⟨C, hC, ?_⟩
    intro m
    rw [hl m]
    cases hp : dlookup A m with
    | none => rfl
    | some p =>
      have hm : m ∈ keys A := (dlookup_isSome_iff_mem A m).mp (by rw [hp]; rfl)
      obtain ⟨q, hq⟩ : ∃ q, dlookup B m = some q := by
        have := (dlookup_isSome_iff_mem B m).mpr (hAB m hm)
        cases hbq : dlookup B m with
        | none => rw [hbq] at this; simp at this
        | some q => exact ⟨q, rfl⟩
      rw [hq]
      obtain ⟨p1, p2⟩ := p
      simp
  · obtain ⟨C, hC, hk, hl⟩ := interpolate_spec A B 1 hAB
    refine ⟨C, hC, ?_⟩
    intro m
    rw [hl m]
    cases hp : dlookup A m with
    | none =>
      have hm : m ∉ keys A := by
        rw [← dlookup_eq_none_iff_not_mem]; exact hp
      have hmB : m ∉ keys B := fun hmb => hm (hBA m hmb)
      rw [(dlookup_eq_none_iff_not_mem B m).mpr hmB]
      rfl
    | some p =>
      have hm : m ∈ keys A := (dlookup_isSome_iff_mem A m).mp (by rw [hp]; rfl)
      obtain ⟨q, hq⟩ : ∃ q, dlookup B m = some q := by
        have := (dlookup_isSome_iff_mem B m).mpr (hAB m hm)
        cases hbq : dlookup B m with
        | none => rw [hbq] at this; simp at this
        | some q => exact ⟨q, rfl⟩
      rw [hq]
      obtain ⟨p1, p2⟩ := p
      obtain ⟨q1, q2⟩ := q
      simp
  · obtain ⟨C, hC, hk, hl⟩ := interpolate_spec A B (1/2) hAB
    refine ⟨C, hC, ?_⟩
    intro m p q hp hq
    rw [hl m, hp, hq]
    obtain ⟨p1, p2⟩ := p
    obtain ⟨q1, q2⟩ := q
    simp
    refine ⟨by ring, by ring⟩

/-- Witness for C2 at two concrete two-joint poses with the same key set
in different orders and the out-of-range parameter t = 2. -/
theorem c2_interpolate_linear_witness :
    (∃ C, interpolate [("head", ((0 : ℚ), (1 : ℚ))), ("neck", (1, 2))]
        [("neck", ((3 : ℚ), (4 : ℚ))), ("head", (2, -1))] 2 = some C ∧
       keys C = keys [("head", ((0 : ℚ), (1 : ℚ))), ("neck", (1, 2))] ∧
       ∀ m p q, dlookup [("head", ((0 : ℚ), (1 : ℚ))), ("neck", (1, 2))] m = some p →
         dlookup [("neck", ((3 : ℚ), (4 : ℚ))), ("head", (2, -1))] m = some q →
         dlookup C m = some (p.1 + (q.1 - p.1) * 2, p.2 + (q.2 - p.2) * 2)) ∧
    (∃ C, interpolate [("head", ((0 : ℚ), (1 : ℚ))), ("neck", (1, 2))]
        [("head", ((0 : ℚ), (1 : ℚ))), ("neck", (1, 2))] 2 = some C ∧
       keys C = keys [("head", ((0 : ℚ), (1 : ℚ))), ("neck", (1, 2))] ∧
       ∀ m, dlookup C m = dlookup [("head", ((0 : ℚ), (1 : ℚ))), ("neck", (1, 2))] m) ∧
    (∃ C, interpolate [("head", ((0 : ℚ), (1 : ℚ))), ("neck", (1, 2))]
        [("neck", ((3 : ℚ), (4 : ℚ))), ("head", (2, -1))] 0 = some C ∧
       ∀ m, dlookup C m = dlookup [("head", ((0 : ℚ), (1 : ℚ))), ("neck", (1, 2))] m) ∧
    (∃ C, interpolate [("head", ((0 : ℚ), (1 : ℚ))), ("neck", (1, 2))]
        [("neck", ((3 : ℚ), (4 : ℚ))), ("head", (2, -1))] 1 = some C ∧
       ∀ m, dlookup C m = dlookup [("neck", ((3 : ℚ), (4 : ℚ))), ("head", (2, -1))] m) ∧
    (∃ C, interpolate [("head", ((0 : ℚ), (1 : ℚ))), ("neck", (1, 2))]
        [("neck", ((3 : ℚ), (4 : ℚ))), ("head", (2, -1))] (1/2) = some C ∧
       ∀ m p q, dlookup [("head", ((0 : ℚ), (1 : ℚ))), ("neck", (1, 2))] m = some p →
         dlookup [("neck", ((3 : ℚ), (4 : ℚ))), ("head", (2, -1))] m = some q →
         dlookup C m = some ((p.1 + q.1) / 2, (p.2 + q.2) / 2)) :=
  c2_interpolate_linear _ _ 2 (by decide) (by decide)

/-- C10: the result key set of interpolate is exactly the key set of
pose1; names only in pose2 are ignored and absent from the result, and a
strict superset pose2 succeeds. -/
theorem c10_superset_ignored (A B : Joints) (t : ℚ)
    (h : ∀ n ∈ keys A, n ∈ keys B) :
    ∃ C, interpolate A B t = some C ∧ keys C = keys A ∧
      ∀ m, m ∉ keys A → dlookup C m = none := by
  obtain ⟨C, hC, hk, hl⟩ := interpolate_spec A B t h
  refine ⟨C, hC, hk, ?_⟩
  intro m hm
  rw [hl m, (dlookup_eq_none_iff_not_mem A m).mpr hm]
  rfl

/-- Witness for C10 with a pose2 whose key set strictly contains the key
set of pose1. -/
theorem c10_superset_ignored_witness :
    ∃ C, interpolate [("head", ((0 : ℚ), (0 : ℚ)))]
        [("head", ((0 : ℚ), (0 : ℚ))), ("neck", (1, 1))] (1/2) = some C ∧
      keys C = keys [("head", ((0 : ℚ), (0 : ℚ)))] ∧
      ∀ m, m ∉ keys [("head", ((0 : ℚ), (0 : ℚ)))] → dlookup C m = none :=
  c10_superset_ignored _ _ (1/2) (by decide)

/-- Counterexample for C6: two poses whose key sets differ (neck is only
in pose2), yet interpolate succeeds instead of failing. -/
theorem c6_counterexample :
    ("neck" ∈ keys [("head", ((0 : ℚ), (0 : ℚ))), ("neck", (1, 1))] ∧
     "neck" ∉ keys [("head", ((0 : ℚ), (0 : ℚ)))]) ∧
    (interpolate [("head", ((0 : ℚ), (0 : ℚ)))]
      [("head", ((0 : ℚ), (0 : ℚ))), ("neck", (1, 1))] (1/2)).isSome = true :=
  ⟨by decide, rfl⟩

/-- C6 amended: interpolate fails (with an untyped KeyError, embedded as
no result) exactly in the direction where some key of pose1 is missing
from pose2; keys present only in pose2 cause no error. -/
theorem c6_missing_key_fails (A B : Joints) (t : ℚ) (n : String)
    (hn : n ∈ keys A) (hB : dlookup B n = none) : interpolate A B t = none :=
  interpolate_none_of_missing A B t n hn hB

/-- Witness for the amended C6: a one-joint pose interpolated against the
empty pose fails. -/
theorem c6_missing_key_fails_witness :
    interpolate [("head", ((0 : ℚ), (0 : ℚ)))] [] 1 = none :=
  c6_missing_key_fails _ [] 1 "head" (by decide) rfl

theorem keys_map_pair {α β : Type} (l : List (String × α)) (f : String × α → β) :
    keys (l.map fun kv => (kv.1, f kv)) = keys l := by
  induction l with
  | nil => rfl
  | cons kv rest ih => simp [keys]

theorem keys_cons {α : Type} (n : String) (v : α) (rest : List (String × α)) :
    keys ((n, v) :: rest) = n :: keys rest := rfl

theorem dlookup_cons_self {α : Type} (n : String) (v : α) (rest : List (String × α)) :
    dlookup ((n, v) :: rest) n = some v := by simp [dlookup]

theorem dlookup_cons_ne {α : Type} (n m : String) (v : α) (rest : List (String × α))
    (h : ¬ n = m) : dlookup ((n, v) :: rest) m = dlookup rest m := by simp [dlookup, h]

theorem load_items_saved (P : Joints) (sf : List (String × (JVal × JVal)))
    (hnd : (keys P).Nodup) :
    ∃ J, load_items (savedItems P) sf = some J ∧
      (∀ m, dlookup J m = if m ∈ keys P
        then (dlookup P m).map (fun p => (JVal.num p.1, JVal.num p.2))
        else dlookup sf m) ∧
      ((∀ n ∈ keys P, n ∈ keys sf) → keys J = keys sf) := by
  induction P generalizing sf with
  | nil =>
    refine ⟨sf, rfl, ?_, fun _ => rfl⟩
    intro m
    simp [keys]
  | cons np rest ih =>
    obtain ⟨n, p⟩ := np
    rw [keys_cons] at hnd
    have hnotin : n ∉ keys rest := (List.nodup_cons.mp hnd).1
    have hnd2 : (keys rest).Nodup := (List.nodup_cons.mp hnd).2
    obtain ⟨J, hJ, hlook, hkeys⟩ := ih (dictSet sf n (JVal.num p.1, JVal.num p.2)) hnd2
    refine ⟨J, ?_, ?_, ?_⟩
    · simp [savedItems, load_items, dlookup]
      simpa [savedItems] using hJ
    · intro m
      rw [hlook m, keys_cons]
      by_cases hm : m ∈ keys rest
      · have hmn : ¬ n = m := fun he => hnotin (he ▸ hm)
        rw [if_pos hm, if_pos (List.mem_cons_of_mem n hm), dlookup_cons_ne n m p rest hmn]
      · by_cases hmn : m = n
        · subst hmn
          rw [if_neg hm, if_pos (List.mem_cons_self m (keys rest)),
            dlookup_dictSet_self, dlookup_cons_self]
          rfl
        · have hnm : ¬ n = m := fun he => hmn he.symm
          have hmc : m ∉ n :: keys rest := by
            intro hc
            rcases List.mem_cons.mp hc with hc | hc
            · exact hmn hc
            · exact hm hc
          rw [if_neg hm, if_neg hmc, dlookup_dictSet_ne sf n m _ hmn]
    · intro hsub
      have hn : n ∈ keys sf := hsub n (List.mem_cons_self n (keys rest))
      have hrest : ∀ m ∈ keys rest, m ∈ keys (dictSet sf n (JVal.num p.1, JVal.num p.2)) := by
        intro m hm
        rw [keys_dictSet_of_mem sf n _ hn]
        exact hsub m (List.mem_cons_of_mem n hm)
      rw [hkeys hrest, keys_dictSet_of_mem sf n _ hn]

theorem load_items_keys (items : List (String × JVal))
    (sf J : List (String × (JVal × JVal))) (hload : load_items items sf = some J)
    (hsub : ∀ n ∈ keys items, n ∈ keys sf) : keys J = keys sf := by
  induction items generalizing sf with
  | nil =>
    simp [load_items] at hload
    rw [← hload]
  | cons nc rest ih =>
    obtain ⟨n, c⟩ := nc
    have hn : n ∈ keys sf := hsub n (List.mem_cons_self n (keys rest))
    cases c with
    | obj coords =>
      cases hx : dlookup coords "x" with
      | none => simp [load_items, hx] at hload
      | some xv =>
        cases hy : dlookup coords "y" with
        | none => simp [load_items, hx, hy] at hload
        | some yv =>
          rw [load_items, hx, hy] at hload
          have hrest : ∀ m ∈ keys rest, m ∈ keys (dictSet sf n (xv, yv)) := by
            intro m hm
            rw [keys_dictSet_of_mem sf n _ hn]
            exact hsub m (List.mem_cons_of_mem n hm)
          rw [ih (dictSet sf n (xv, yv)) hload hrest, keys_dictSet_of_mem sf n _ hn]
    | num q => simp [load_items] at hload
    | str s => simp [load_items] at hload
    | bool b => simp [load_items] at hload
    | null => simp [load_items] at hload
    | arr l => simp [load_items] at hload

/-- C1: saving any valid pose (a dictionary over exactly the 15 default
joint names) and loading the saved record reproduces every joint
position exactly, hence within any floating-point tolerance. -/
theorem c1_round_trip (P : Joints) (conns : List (String × String))
    (hnd : (keys P).Nodup)
    (h1 : ∀ n ∈ keys P, n ∈ keys defaultJoints)
    (_h2 : ∀ n ∈ keys defaultJoints, n ∈ keys P) :
    ∃ J, load_pose (save_pose P conns) = some J ∧ keys J = keys defaultJoints ∧
      ∀ n p, dlookup P n = some p → dlookup J n = some (JVal.num p.1, JVal.num p.2) := by
  have hkd : keys jdefaultJoints = keys defaultJoints := keys_map_pair _ _
  obtain ⟨J, hJ, hlook, hkeys⟩ := load_items_saved P jdefaultJoints hnd
  have hload : load_pose (save_pose P conns) = some J := by
    simp [load_pose, save_pose, dlookup]
    exact hJ
  refine ⟨J, hload, ?_, ?_⟩
  · rw [hkeys (fun n hn => hkd ▸ h1 n hn), hkd]
  · intro n p hp
    have hn : n ∈ keys P := (dlookup_isSome_iff_mem P n).mp (by rw [hp]; rfl)
    rw [hlook n]
    simp [hn, hp]

/-- Witness for C1: the default pose with the head moved, saved with the
skeleton connection list and loaded back. -/
theorem c1_round_trip_witness :
    ∃ J, load_pose (save_pose (update_joint defaultJoints "head" (1, 2))
        skeleton_connections) = some J ∧
      keys J = keys defaultJoints ∧
      ∀ n p, dlookup (update_joint defaultJoints "head" (1, 2)) n = some p →
        dlookup J n = some (JVal.num p.1, JVal.num p.2) :=
  c1_round_trip _ _ (by decide) (by decide) (by decide)

/-- Counterexample for C7: a record whose head x coordinate is the string
"oops" loads successfully into a silently reconstructed pose instead of
failing. -/
theorem c7_counterexample :
    (load_pose (JVal.obj [("joints", JVal.obj [("head",
        JVal.obj [("x", JVal.str "oops"), ("y", JVal.num 0)])])])).isSome = true ∧
    ((load_pose (JVal.obj [("joints", JVal.obj [("head",
        JVal.obj [("x", JVal.str "oops"), ("y", JVal.num 0)])])])).bind
      fun j => dlookup j "head") = some (JVal.str "oops", JVal.num 0) :=
  ⟨rfl, rfl⟩

theorem load_items_malformed (items : List (String × JVal))
    (sf : List (String × (JVal × JVal))) (n : String) (c : JVal)
    (hmem : (n, c) ∈ items)
    (hbad : (∀ coords, c ≠ JVal.obj coords) ∨
      (∃ coords, c = JVal.obj coords ∧
        (dlookup coords "x" = none ∨ dlookup coords "y" = none))) :
    load_items items sf = none := by
  induction items generalizing sf with
  | nil => exact absurd hmem (List.not_mem_nil _)
  | cons md rest ih =>
    obtain ⟨m, d⟩ := md
    rcases List.mem_cons.mp hmem with heq | hrest
    · have hd : d = c := (congrArg Prod.snd heq).symm
      subst hd
      rcases hbad with hne | ⟨coords, hc, hxy⟩
      · cases d with
        | obj coords => exact absurd rfl (hne coords)
        | num q => rfl
        | str s => rfl
        | bool b => rfl
        | null => rfl
        | arr l => rfl
      · subst hc
        rcases hxy with hx | hy
        · simp [load_items, hx]
        · cases hx2 : dlookup coords "x" with
          | none => simp [load_items, hx2]
          | some xv => simp [load_items, hx2, hy]
    · cases d with
      | obj coords =>
        cases hx : dlookup coords "x" with
        | none => simp [load_items, hx]
        | some xv =>
          cases hy : dlookup coords "y" with
          | none => simp [load_items, hx, hy]
          | some yv =>
            simp only [load_items, hx, hy]
            exact ih (dictSet sf m (xv, yv)) hrest
      | num q => rfl
      | str s => rfl
      | bool b => rfl
      | null => rfl
      | arr l => rfl

theorem load_items_wellformed (items : List (String × JVal))
    (sf : List (String × (JVal × JVal))) (hnd : (keys items).Nodup)
    (hwf : ∀ nc ∈ items, ∃ coords xv yv, nc.2 = JVal.obj coords ∧
      dlookup coords "x" = some xv ∧ dlookup coords "y" = some yv) :
    ∃ J, load_items items sf = some J ∧
      (∀ m, m ∉ keys items → dlookup J m = dlookup sf m) ∧
      (∀ n coords xv yv, dlookup items n = some (JVal.obj coords) →
        dlookup coords "x" = some xv → dlookup coords "y" = some yv →
        dlookup J n = some (xv, yv)) := by
  induction items generalizing sf with
  | nil =>
    refine ⟨sf, rfl, fun m _ => rfl, ?_⟩
    intro n coords xv yv hc
    simp [dlookup] at hc
  | cons md rest ih =>
    obtain ⟨m, d⟩ := md
    obtain ⟨coords, xv, yv, hd, hx, hy⟩ := hwf (m, d) (List.mem_cons_self _ _)
    have hde : d = JVal.obj coords := hd
    subst hde
    rw [keys_cons] at hnd
    have hnotin : m ∉ keys rest := (List.nodup_cons.mp hnd).1
    have hnd2 : (keys rest).Nodup := (List.nodup_cons.mp hnd).2
    obtain ⟨J, hJ, hout, hin⟩ := ih (dictSet sf m (xv, yv)) hnd2
      (fun nc hnc => hwf nc (List.mem_cons_of_mem _ hnc))
    refine ⟨J, ?_, ?_, ?_⟩
    · simp only [load_items, hx, hy]
      exact hJ
    · intro k hk
      have hkm : k ≠ m := by
        intro he
        subst he
        exact hk (List.mem_cons_self k (keys rest))
      have hkrest : k ∉ keys rest := fun hc => hk (List.mem_cons_of_mem m hc)
      rw [hout k hkrest, dlookup_dictSet_ne sf m k _ hkm]
    · intro n coords2 xv2 yv2 hc hx2 hy2
      by_cases hmn : m = n
      · subst hmn
        rw [dlookup_cons_self] at hc
        have hco : coords = coords2 := JVal.obj.inj (Option.some.inj hc)
        subst hco
        have hxe : xv2 = xv := Option.some.inj (hx2.symm.trans hx)
        have hye : yv2 = yv := Option.some.inj (hy2.symm.trans hy)
        subst hxe
        subst hye
        rw [hout m hnotin, dlookup_dictSet_self]
      · rw [dlookup_cons_ne m n _ rest hmn] at hc
        exact hin n coords2 xv2 yv2 hc hx2 hy2

/-- C7 amended: any record missing the joints field, or whose joints
mapping contains an entry whose coordinate value is not an object or
whose coordinate object misses the x or y field, hard-fails the load
call; any record all of whose entries carry an object with x and y
fields loads successfully, storing each pair of field values as is,
numeric or not. -/
theorem c7_load_failures :
    (∀ fields, dlookup fields "joints" = none → load_pose (JVal.obj fields) = none) ∧
    (∀ fields items n c, dlookup fields "joints" = some (JVal.obj items) →
      (n, c) ∈ items →
      ((∀ coords, c ≠ JVal.obj coords) ∨
        (∃ coords, c = JVal.obj coords ∧
          (dlookup coords "x" = none ∨ dlookup coords "y" = none))) →
      load_pose (JVal.obj fields) = none) ∧
    (∀ fields items, dlookup fields "joints" = some (JVal.obj items) →
      (keys items).Nodup →
      (∀ nc ∈ items, ∃ coords xv yv, nc.2 = JVal.obj coords ∧
        dlookup coords "x" = some xv ∧ dlookup coords "y" = some yv) →
      ∃ J, load_pose (JVal.obj fields) = some J ∧
        ∀ n coords xv yv, dlookup items n = some (JVal.obj coords) →
          dlookup coords "x" = some xv → dlookup coords "y" = some yv →
          dlookup J n = some (xv, yv)) := by
  refine ⟨?_, ?_, ?_⟩
  · intro fields h
    simp [load_pose, h]
  · intro fields items n c hj hmem hbad
    simp only [load_pose, hj]
    exact load_items_malformed items jdefaultJoints n c hmem hbad
  · intro fields items hj hnd hwf
    obtain ⟨J, hJ, _, hin⟩ := load_items_wellformed items jdefaultJoints hnd hwf
    refine ⟨J, ?_, hin⟩
    simp only [load_pose, hj]
    exact hJ

/-- Witness for the amended C7: a record with no joints field fails, a
record whose head coordinate is the bare number 3 fails, and a record
whose head x coordinate is the string "oops" loads with the string
stored as is. -/
theorem c7_load_failures_witness :
    load_pose (JVal.obj []) = none ∧
    load_pose (JVal.obj [("joints", JVal.obj [("head", JVal.num 3)])]) = none ∧
    (∃ J, load_pose (JVal.obj [("joints", JVal.obj [("head",
        JVal.obj [("x", JVal.str "oops"), ("y", JVal.num 0)])])]) = some J ∧
      ∀ n coords xv yv,
        dlookup [("head", JVal.obj [("x", JVal.str "oops"), ("y", JVal.num 0)])] n
          = some (JVal.obj coords) →
        dlookup coords "x" = some xv → dlookup coords "y" = some yv →
        dlookup J n = some (xv, yv)) := by
  refine ⟨c7_load_failures.1 [] rfl,
    c7_load_failures.2.1 _ _ "head" (JVal.num 3) rfl (List.mem_cons_self _ _)
      (Or.inl fun coords h => JVal.noConfusion h), ?_⟩
  refine c7_load_failures.2.2 _
    [("head", JVal.obj [("x", JVal.str "oops"), ("y", JVal.num 0)])] rfl
    (by decide) ?_
  intro nc hnc
  have he := List.mem_singleton.mp hnc
  subst he
  exact ⟨[("x", JVal.str "oops"), ("y", JVal.num 0)], JVal.str "oops", JVal.num 0,
    rfl, rfl, rfl⟩

theorem apply_gravity_spec (names : List String) (vels : Joints)
    (hnd : names.Nodup) (hsub : ∀ n ∈ names, n ∈ keys vels) :
    ∃ v2, apply_gravity names vels = some v2 ∧ keys v2 = keys vels ∧
      ∀ m, dlookup v2 m = if m ∈ names
        then (dlookup vels m).map (fun v => ((v.1, v.2 + gravity) : Pos))
        else dlookup vels m := by
  induction names generalizing vels with
  | nil =>
    refine ⟨vels, rfl, rfl, ?_⟩
    intro m
    simp
  | cons n rest ih =>
    have hn : n ∈ keys vels := hsub n (List.mem_cons_self n rest)
    obtain ⟨v, hv⟩ : ∃ v, dlookup vels n = some v := by
      have := (dlookup_isSome_iff_mem vels n).mpr hn
      cases hq : dlookup vels n with
      | none => rw [hq] at this; simp at this
      | some v => exact ⟨v, rfl⟩
    have hnotin : n ∉ rest := (List.nodup_cons.mp hnd).1
    have hnd2 : rest.Nodup := (List.nodup_cons.mp hnd).2
    have hsub2 : ∀ m ∈ rest, m ∈ keys (dictSet vels n (v.1, v.2 + gravity)) := by
      intro m hm
      rw [keys_dictSet_of_mem vels n _ hn]
      exact hsub m (List.mem_cons_of_mem n hm)
    obtain ⟨v2, hv2, hk2, hl2⟩ := ih (dictSet vels n (v.1, v.2 + gravity)) hnd2 hsub2
    refine ⟨v2, ?_, ?_, ?_⟩
    · rw [apply_gravity, hv]
      exact hv2
    · rw [hk2, keys_dictSet_of_mem vels n _ hn]
    · intro m
      rw [hl2 m]
      by_cases hm : m ∈ rest
      · have hmn : m ≠ n := fun he => hnotin (he ▸ hm)
        rw [if_pos hm, if_pos (List.mem_cons_of_mem n hm),
          dlookup_dictSet_ne vels n m _ hmn]
      · by_cases hmn : m = n
        · subst hmn
          rw [if_neg hm, if_pos (List.mem_cons_self m rest), dlookup_dictSet_self, hv]
          rfl
        · have hmc : m ∉ n :: rest := by
            intro hc
            rcases List.mem_cons.mp hc with hc | hc
            · exact hmn hc
            · exact hm hc
          rw [if_neg hm, if_neg hmc, dlookup_dictSet_ne vels n m _ hmn]

theorem integrate_positions_spec (joints vels : Joints)
    (hsub : ∀ n ∈ keys joints, n ∈ keys vels) :
    ∃ j2, integrate_positions joints vels = some j2 ∧ keys j2 = keys joints ∧
      ∀ m, dlookup j2 m = (dlookup joints m).bind fun p =>
        (dlookup vels m).map fun v => ((p.1 + v.1, p.2 + v.2) : Pos) := by
  induction joints with
  | nil =>
    refine ⟨[], rfl, rfl, ?_⟩
    intro m
    simp [dlookup]
  | cons np rest ih =>
    obtain ⟨n, p⟩ := np
    have hn : n ∈ keys vels := hsub n (by rw [keys_cons]; exact List.mem_cons_self n _)
    obtain ⟨v, hv⟩ : ∃ v, dlookup vels n = some v := by
      have := (dlookup_isSome_iff_mem vels n).mpr hn
      cases hq : dlookup vels n with
      | none => rw [hq] at this; simp at this
      | some v => exact ⟨v, rfl⟩
    obtain ⟨j2, hj2, hk2, hl2⟩ := ih
      (fun m hm => hsub m (by rw [keys_cons]; exact List.mem_cons_of_mem n hm))
    refine ⟨(n, (p.1 + v.1, p.2 + v.2)) :: j2, ?_, ?_, ?_⟩
    · rw [integrate_positions, hv, hj2]
    · rw [keys_cons, keys_cons, hk2]
    · intro m
      by_cases hmn : n = m
      · subst hmn
        rw [dlookup_cons_self, dlookup_cons_self, hv]
        rfl
      · rw [dlookup_cons_ne n m _ _ hmn, dlookup_cons_ne n m _ _ hmn, hl2 m]

theorem apply_constraint_spec (joints vels : Joints) (n : String) (c : Constraint)
    (hj : n ∈ keys joints) (hv : n ∈ keys vels) :
    ∃ j2 v2, apply_constraint joints vels n c = some (j2, v2) ∧
      keys j2 = keys joints ∧ keys v2 = keys vels ∧
      (∀ m, m ≠ n → dlookup j2 m = dlookup joints m ∧ dlookup v2 m = dlookup vels m) ∧
      (∀ p v, dlookup joints n = some p → dlookup vels n = some v →
        dlookup j2 n = some (constrainedPos c p) ∧
        dlookup v2 n = some (constrainedVel c p v)) := by
  obtain ⟨p0, hp0⟩ : ∃ p0, dlookup joints n = some p0 := by
    have := (dlookup_isSome_iff_mem joints n).mpr hj
    cases hq : dlookup joints n with
    | none => rw [hq] at this; simp at this
    | some p => exact ⟨p, rfl⟩
  obtain ⟨v0, hv0⟩ : ∃ v0, dlookup vels n = some v0 := by
    have := (dlookup_isSome_iff_mem vels n).mpr hv
    cases hq : dlookup vels n with
    | none => rw [hq] at this; simp at this
    | some v => exact ⟨v, rfl⟩
  cases hmin : c.y_min with
  | some ym =>
    by_cases hlt : p0.2 < ym
    · refine ⟨dictSet joints n (p0.1, clampMax c ym),
        dictSet vels n (v0.1, -v0.2 * damping), ?_, ?_, ?_, ?_, ?_⟩
      · simp [apply_constraint, hp0, hmin, hlt, hv0]
      · exact keys_dictSet_of_mem joints n _ hj
      · exact keys_dictSet_of_mem vels n _ hv
      · intro m hm
        exact ⟨dlookup_dictSet_ne joints n m _ hm, dlookup_dictSet_ne vels n m _ hm⟩
      · intro p v hp hv2
        have hpe : p = p0 := Option.some.inj (hp.symm.trans hp0)
        have hve : v = v0 := Option.some.inj (hv2.symm.trans hv0)
        subst hpe; subst hve
        rw [dlookup_dictSet_self, dlookup_dictSet_self]
        simp [constrainedPos, constrainedVel, hmin, hlt]
    · refine ⟨dictSet joints n (p0.1, clampMax c p0.2), vels, ?_, ?_, rfl, ?_, ?_⟩
      · simp [apply_constraint, hp0, hmin, hlt]
      · exact keys_dictSet_of_mem joints n _ hj
      · intro m hm
        exact ⟨dlookup_dictSet_ne joints n m _ hm, rfl⟩
      · intro p v hp hv2
        have hpe : p = p0 := Option.some.inj (hp.symm.trans hp0)
        subst hpe
        rw [dlookup_dictSet_self]
        simp [constrainedPos, constrainedVel, hmin, hlt, hv2]
  | none =>
    refine ⟨dictSet joints n (p0.1, clampMax c p0.2), vels, ?_, ?_, rfl, ?_, ?_⟩
    · simp [apply_constraint, hp0, hmin]
    · exact keys_dictSet_of_mem joints n _ hj
    · intro m hm
      exact ⟨dlookup_dictSet_ne joints n m _ hm, rfl⟩
    · intro p v hp hv2
      have hpe : p = p0 := Option.some.inj (hp.symm.trans hp0)
      subst hpe
      rw [dlookup_dictSet_self]
      simp [constrainedPos, constrainedVel, hmin, hv2]

theorem apply_constraints_spec (cs : List (String × Constraint)) (joints vels : Joints)
    (hnd : (keys cs).Nodup)
    (hcj : ∀ n ∈ keys cs, n ∈ keys joints)
    (hcv : ∀ n ∈ keys cs, n ∈ keys vels) :
    ∃ j2 v2, apply_constraints cs joints vels = some (j2, v2) ∧
      keys j2 = keys joints ∧ keys v2 = keys vels ∧
      (∀ m, dlookup cs m = none →
        dlookup j2 m = dlookup joints m ∧ dlookup v2 m = dlookup vels m) ∧
      (∀ m c p v, dlookup cs m = some c → dlookup joints m = some p →
        dlookup vels m = some v →
        dlookup j2 m = some (constrainedPos c p) ∧
        dlookup v2 m = some (constrainedVel c p v)) := by
  induction cs generalizing joints vels with
  | nil =>
    refine ⟨joints, vels, rfl, rfl, rfl, fun m _ => ⟨rfl, rfl⟩, ?_⟩
    intro m c p v hc
    simp [dlookup] at hc
  | cons nc rest ih =>
    obtain ⟨n, c⟩ := nc
    rw [keys_cons] at hnd hcj hcv
    have hnotin : n ∉ keys rest := (List.nodup_cons.mp hnd).1
    have hnd2 : (keys rest).Nodup := (List.nodup_cons.mp hnd).2
    have hnj : n ∈ keys joints := hcj n (List.mem_cons_self n _)
    have hnv : n ∈ keys vels := hcv n (List.mem_cons_self n _)
    obtain ⟨j1, v1, happ1, hkj1, hkv1, hother, hself⟩ :=
      apply_constraint_spec joints vels n c hnj hnv
    obtain ⟨j2, v2, happ2, hkj2, hkv2, hnone, hsome⟩ := ih j1 v1 hnd2
      (fun m hm => hkj1 ▸ hcj m (List.mem_cons_of_mem n hm))
      (fun m hm => hkv1 ▸ hcv m (List.mem_cons_of_mem n hm))
    refine ⟨j2, v2, ?_, hkj2.trans hkj1, hkv2.trans hkv1, ?_, ?_⟩
    · rw [apply_constraints, happ1]
      exact happ2
    · intro m hm
      have hnm : ¬ n = m := by
        intro he
        subst he
        rw [dlookup_cons_self] at hm
        exact Option.noConfusion hm
      rw [dlookup_cons_ne n m c rest hnm] at hm
      obtain ⟨e1, e2⟩ := hnone m hm
      obtain ⟨f1, f2⟩ := hother m (fun he => hnm he.symm)
      exact ⟨e1.trans f1, e2.trans f2⟩
    · intro m c0 p v hc0 hp hv
      by_cases hnm : n = m
      · subst hnm
        rw [dlookup_cons_self] at hc0
        have hce : c0 = c := (Option.some.inj hc0).symm
        subst hce
        have hrest : dlookup rest n = none :=
          (dlookup_eq_none_iff_not_mem rest n).mpr hnotin
        obtain ⟨e1, e2⟩ := hnone n hrest
        obtain ⟨f1, f2⟩ := hself p v hp hv
        exact ⟨e1.trans f1, e2.trans f2⟩
      · rw [dlookup_cons_ne n m c rest hnm] at hc0
        obtain ⟨f1, f2⟩ := hother m (fun he => hnm he.symm)
        exact hsome m c0 p v hc0 (f1.trans hp) (f2.trans hv)

theorem physics_update_spec (cs : List (String × Constraint)) (joints vels : Joints)
    (hndj : (keys joints).Nodup) (hndc : (keys cs).Nodup)
    (hjv : ∀ n ∈ keys joints, n ∈ keys vels)
    (hcj : ∀ n ∈ keys cs, n ∈ keys joints) :
    ∃ j2 v2, physics_update cs joints vels = some (j2, v2) ∧
      keys j2 = keys joints ∧ keys v2 = keys vels ∧
      ∀ n p v, dlookup joints n = some p → dlookup vels n = some v →
        dlookup j2 n = some (specJointStep (dlookup cs n) p v).1 ∧
        dlookup v2 n = some (specJointStep (dlookup cs n) p v).2 := by
  obtain ⟨v1, hg, hkv1, hlv1⟩ := apply_gravity_spec (keys joints) vels hndj hjv
  have hjv1 : ∀ n ∈ keys joints, n ∈ keys v1 := fun n hn => hkv1 ▸ hjv n hn
  obtain ⟨j1, hint, hkj1, hlj1⟩ := integrate_positions_spec joints v1 hjv1
  have hcj1 : ∀ n ∈ keys cs, n ∈ keys j1 := fun n hn => hkj1 ▸ hcj n hn
  have hcv1 : ∀ n ∈ keys cs, n ∈ keys v1 := fun n hn => hkv1 ▸ hjv n (hcj n hn)
  obtain ⟨j2, v2, happ, hkj2, hkv2, hnone, hsome⟩ :=
    apply_constraints_spec cs j1 v1 hndc hcj1 hcv1
  refine ⟨j2, v2, ?_, hkj2.trans hkj1, hkv2.trans hkv1, ?_⟩
  · simp [physics_update, hg, hint, happ]
  · intro n p v hp hv
    have hn : n ∈ keys joints := (dlookup_isSome_iff_mem joints n).mp (by rw [hp]; rfl)
    have hv1n : dlookup v1 n = some ((v.1, v.2 + gravity) : Pos) := by
      rw [hlv1 n, if_pos hn, hv]
      rfl
    have hj1n : dlookup j1 n = some ((p.1 + v.1, p.2 + (v.2 + gravity)) : Pos) := by
      rw [hlj1 n, hp, hv1n]
      rfl
    cases hc : dlookup cs n with
    | none =>
      obtain ⟨e1, e2⟩ := hnone n hc
      exact ⟨e1.trans hj1n, e2.trans hv1n⟩
    | some c =>
      obtain ⟨e1, e2⟩ := hsome n c _ _ hc hj1n hv1n
      exact ⟨e1, e2⟩

/-- C3: one physics step applies, per joint, gravity to the velocity,
then one velocity integration of the position, then the declared
constraint, in that order: the y_min clamp with velocity reflection
damped by r = 0.7 first, the hard y_max clamp second, and no clamping at
all for joints without a constraint entry; this is exactly the per-joint
step function specJointStep. -/
theorem c3_update_per_joint (joints vels : Joints)
    (hndj : (keys joints).Nodup)
    (hjv : ∀ n ∈ keys joints, n ∈ keys vels)
    (hcj : ∀ n ∈ keys build_constraints, n ∈ keys joints) :
    (∃ j2 v2, physics_update build_constraints joints vels = some (j2, v2) ∧
      keys j2 = keys joints ∧ keys v2 = keys vels ∧
      ∀ n p v, dlookup joints n = some p → dlookup vels n = some v →
        dlookup j2 n = some (specJointStep (dlookup build_constraints n) p v).1 ∧
        dlookup v2 n = some (specJointStep (dlookup build_constraints n) p v).2) ∧
    damping = 7/10 :=
  ⟨physics_update_spec build_constraints joints vels hndj (by decide) hjv hcj, rfl⟩

/-- Witness for C3: the default figure with freshly initialized zero
velocities. -/
theorem c3_update_per_joint_witness :
    (∃ j2 v2, physics_update build_constraints defaultJoints
        (init_velocities defaultJoints) = some (j2, v2) ∧
      keys j2 = keys defaultJoints ∧
      keys v2 = keys (init_velocities defaultJoints) ∧
      ∀ n p v, dlookup defaultJoints n = some p →
        dlookup (init_velocities defaultJoints) n = some v →
        dlookup j2 n = some (specJointStep (dlookup build_constraints n) p v).1 ∧
        dlookup v2 n = some (specJointStep (dlookup build_constraints n) p v).2) ∧
    damping = 7/10 :=
  c3_update_per_joint _ _ (by decide) (by decide) (by decide)

theorem build_constraints_minmax (n : String) (c : Constraint) (ym : ℚ)
    (hc : dlookup build_constraints n = some c) (hym : c.y_min = some ym) :
    ∃ yM, c.y_max = some yM ∧ ym ≤ yM := by
  by_cases h1 : ("left_ankle" : String) = n
  · rw [build_constraints, dlookup, if_pos h1] at hc
    have hce : c = ⟨some (-8/10), some (5/10)⟩ := (Option.some.inj hc).symm
    subst hce
    refine ⟨5/10, rfl, ?_⟩
    have : ym = -8/10 := (Option.some.inj hym).symm
    subst this
    norm_num
  · rw [build_constraints, dlookup, if_neg h1] at hc
    by_cases h2 : ("right_ankle" : String) = n
    · rw [dlookup, if_pos h2] at hc
      have hce : c = ⟨some (-8/10), some (5/10)⟩ := (Option.some.inj hc).symm
      subst hce
      refine ⟨5/10, rfl, ?_⟩
      have : ym = -8/10 := (Option.some.inj hym).symm
      subst this
      norm_num
    · rw [dlookup, if_neg h2] at hc
      by_cases h3 : ("head" : String) = n
      · rw [dlookup, if_pos h3] at hc
        have hce : c = ⟨some (5/10), some (25/10)⟩ := (Option.some.inj hc).symm
        subst hce
        refine ⟨25/10, rfl, ?_⟩
        have : ym = 5/10 := (Option.some.inj hym).symm
        subst this
        norm_num
      · rw [dlookup, if_neg h3, dlookup] at hc
        exact Option.noConfusion hc

theorem constrainedPos_ge_min (c : Constraint) (ym yM : ℚ) (p1 : Pos)
    (hmin : c.y_min = some ym) (hmax : c.y_max = some yM) (hle : ym ≤ yM) :
    ym ≤ (constrainedPos c p1).2 := by
  simp only [constrainedPos, hmin, clampMax, hmax]
  by_cases hlt : p1.2 < ym
  · rw [if_pos hlt]
    show ym ≤ if ym > yM then yM else ym
    rw [if_neg (not_lt.mpr hle)]
  · rw [if_neg hlt]
    show ym ≤ if p1.2 > yM then yM else p1.2
    by_cases hgt : p1.2 > yM
    · rw [if_pos hgt]; exact hle
    · rw [if_neg hgt]; exact not_lt.mp hlt

/-- C4: with the built constraint table, every joint holding a y_min
constraint ends every physics step at or above y_min, and on a step
whose integrated position crosses from at-or-above y_min to below it the
vertical velocity is replaced by the damped reflection
-(vy + g) * r, which is strictly positive, so its sign flips. -/
theorem c4_floor_invariant (joints vels : Joints)
    (hndj : (keys joints).Nodup)
    (hjv : ∀ n ∈ keys joints, n ∈ keys vels)
    (hcj : ∀ n ∈ keys build_constraints, n ∈ keys joints)
    (n : String) (c : Constraint) (ym : ℚ)
    (hc : dlookup build_constraints n = some c) (hym : c.y_min = some ym)
    (p v : Pos) (hp : dlookup joints n = some p) (hv : dlookup vels n = some v) :
    ∃ j2 v2, physics_update build_constraints joints vels = some (j2, v2) ∧
      (∀ q, dlookup j2 n = some q → ym ≤ q.2) ∧
      (ym ≤ p.2 → p.2 + (v.2 + gravity) < ym →
        dlookup v2 n = some (v.1, -(v.2 + gravity) * damping) ∧
        0 < -(v.2 + gravity) * damping) := by
  obtain ⟨j2, v2, hupd, _, _, hlook⟩ :=
    physics_update_spec build_constraints joints vels hndj (by decide) hjv hcj
  obtain ⟨e1, e2⟩ := hlook n p v hp hv
  obtain ⟨yM, hmax, hle⟩ := build_constraints_minmax n c ym hc hym
  refine ⟨j2, v2, hupd, ?_, ?_⟩
  · intro q hq
    rw [hc] at e1
    have hqe : q = (specJointStep (some c) p v).1 := Option.some.inj (hq.symm.trans e1)
    subst hqe
    exact constrainedPos_ge_min c ym yM _ hym hmax hle
  · intro hge hlt
    have hneg : v.2 + gravity < 0 := by linarith
    rw [hc] at e2
    constructor
    · rw [e2]
      show some (constrainedVel c (p.1 + v.1, p.2 + (v.2 + gravity)) (v.1, v.2 + gravity)) = _
      simp only [constrainedVel, hym]
      rw [if_pos (show (((p.1 + v.1, p.2 + (v.2 + gravity)) : Pos)).2 < ym from hlt)]
    · have hd : (0 : ℚ) < damping := by norm_num [damping]
      have hp2 : (0 : ℚ) < -(v.2 + gravity) := by linarith
      exact mul_pos hp2 hd

/-- Witness for C4: the default figure dropped with zero initial
velocities, at the head joint with its floor constraint at 0.5. -/
theorem c4_floor_invariant_witness :
    ∃ j2 v2, physics_update build_constraints defaultJoints
        (init_velocities defaultJoints) = some (j2, v2) ∧
      (∀ q, dlookup j2 "head" = some q → (5/10 : ℚ) ≤ q.2) ∧
      ((5/10 : ℚ) ≤ ((0 : ℚ), (17/10 : ℚ)).2 →
        ((0 : ℚ), (17/10 : ℚ)).2 + (((0 : ℚ), (0 : ℚ)).2 + gravity) < 5/10 →
        dlookup v2 "head" = some (((0 : ℚ), (0 : ℚ)).1,
          -(((0 : ℚ), (0 : ℚ)).2 + gravity) * damping) ∧
        0 < -(((0 : ℚ), (0 : ℚ)).2 + gravity) * damping) :=
  c4_floor_invariant defaultJoints (init_velocities defaultJoints)
    (by decide) (by decide) (by decide) "head" ⟨some (5/10), some (25/10)⟩ (5/10)
    rfl rfl ((0 : ℚ), (17/10 : ℚ)) ((0 : ℚ), (0 : ℚ)) rfl rfl

theorem dlookup_update_joint_self (j : Joints) (n : String) (pos : Pos)
    (h : (dlookup j n).isSome = true) :
    dlookup (update_joint j n pos) n = some pos := by
  rw [update_joint, if_pos h]
  exact dlookup_dictSet_self j n pos

theorem dlookup_update_joint_ne (j : Joints) (n m : String) (pos : Pos) (h : m ≠ n) :
    dlookup (update_joint j n pos) m = dlookup j m := by
  rw [update_joint]
  by_cases hs : (dlookup j n).isSome = true
  · rw [if_pos hs]
    exact dlookup_dictSet_ne j n m pos h
  · rw [if_neg hs]

theorem keys_update_joint (j : Joints) (n : String) (pos : Pos) :
    keys (update_joint j n pos) = keys j := by
  rw [update_joint]
  by_cases hs : (dlookup j n).isSome = true
  · rw [if_pos hs]
    exact keys_dictSet_of_mem j n pos ((dlookup_isSome_iff_mem j n).mp hs)
  · rw [if_neg hs]

theorem waveFrame_other (sinf cosf : ℚ → ℚ) (θ : ℚ) (oe ow : Pos) (j : Joints)
    (m : String) (h1 : m ≠ "right_elbow") (h2 : m ≠ "right_wrist") :
    dlookup (waveFrame sinf cosf θ oe ow j) m = dlookup j m := by
  rw [waveFrame, dlookup_update_joint_ne _ _ _ _ h2, dlookup_update_joint_ne _ _ _ _ h1]

theorem keys_waveFrame (sinf cosf : ℚ → ℚ) (θ : ℚ) (oe ow : Pos) (j : Joints) :
    keys (waveFrame sinf cosf θ oe ow j) = keys j := by
  rw [waveFrame, keys_update_joint, keys_update_joint]

/-- Counterexample for C5: the claimed amplitude ordering A1 < A2 < A3
fails on the reference values, since the elbow amplitude 0.2 is not
smaller than the wrist horizontal amplitude 0.1. -/
theorem c5_counterexample :
    (waveElbowAmpY = 2/10 ∧ waveWristAmpX = 1/10 ∧ waveWristAmpY = 4/10) ∧
    ¬ (waveElbowAmpY < waveWristAmpX) := by
  refine ⟨⟨rfl, rfl, rfl⟩, ?_⟩
  norm_num [waveElbowAmpY, waveWristAmpX]

/-- C5 amended: each wave frame offsets the elbow y by A1 sin(theta)
and the wrist by (A2 cos(theta), A3 sin(theta)) from the originals, the
elbow x stays at its original value and all other joints are untouched;
the reference amplitudes are (A1, A2, A3) = (0.2, 0.1, 0.4), ordered
A2 < A1 < A3 rather than A1 < A2 < A3. -/
theorem c5_wave_frame (sinf cosf : ℚ → ℚ) (θ : ℚ) (j : Joints) (oe ow : Pos)
    (he : dlookup j "right_elbow" = some oe) (hw : dlookup j "right_wrist" = some ow) :
    dlookup (waveFrame sinf cosf θ oe ow j) "right_elbow"
      = some (oe.1, oe.2 + waveElbowAmpY * sinf θ) ∧
    dlookup (waveFrame sinf cosf θ oe ow j) "right_wrist"
      = some (ow.1 + waveWristAmpX * cosf θ, ow.2 + waveWristAmpY * sinf θ) ∧
    (∀ m, m ≠ "right_elbow" → m ≠ "right_wrist" →
      dlookup (waveFrame sinf cosf θ oe ow j) m = dlookup j m) ∧
    waveWristAmpX < waveElbowAmpY ∧ waveElbowAmpY < waveWristAmpY ∧
    waveElbowAmpY = 2/10 ∧ waveWristAmpX = 1/10 ∧ waveWristAmpY = 4/10 := by
  have hne : ("right_elbow" : String) ≠ "right_wrist" := by decide
  refine ⟨?_, ?_, ?_, ?_, ?_, rfl, rfl, rfl⟩
  · rw [waveFrame, dlookup_update_joint_ne _ _ _ _ hne,
      dlookup_update_joint_self _ _ _ (by rw [he]; rfl)]
  · rw [waveFrame]
    have hin : (dlookup (update_joint j "right_elbow"
        (oe.1, oe.2 + waveElbowAmpY * sinf θ)) "right_wrist").isSome = true := by
      rw [dlookup_update_joint_ne _ _ _ _ (Ne.symm hne), hw]
      rfl
    rw [dlookup_update_joint_self _ _ _ hin]
  · exact fun m h1 h2 => waveFrame_other sinf cosf θ oe ow j m h1 h2
  · norm_num [waveWristAmpX, waveElbowAmpY]
  · norm_num [waveElbowAmpY, waveWristAmpY]

/-- Witness for the amended C5: the default figure at a concrete phase
with concrete stand-ins for the external sine and cosine. -/
theorem c5_wave_frame_witness :
    dlookup (waveFrame (fun x => x) (fun x => x + 1) 3 ((5/10 : ℚ), (9/10 : ℚ))
        ((6/10 : ℚ), (5/10 : ℚ)) defaultJoints) "right_elbow"
      = some (((5/10 : ℚ), (9/10 : ℚ)).1,
          ((5/10 : ℚ), (9/10 : ℚ)).2 + waveElbowAmpY * (fun x : ℚ => x) 3) ∧
    dlookup (waveFrame (fun x => x) (fun x => x + 1) 3 ((5/10 : ℚ), (9/10 : ℚ))
        ((6/10 : ℚ), (5/10 : ℚ)) defaultJoints) "right_wrist"
      = some (((6/10 : ℚ), (5/10 : ℚ)).1 + waveWristAmpX * (fun x : ℚ => x + 1) 3,
          ((6/10 : ℚ), (5/10 : ℚ)).2 + waveWristAmpY * (fun x : ℚ => x) 3) ∧
    (∀ m, m ≠ "right_elbow" → m ≠ "right_wrist" →
      dlookup (waveFrame (fun x => x) (fun x => x + 1) 3 ((5/10 : ℚ), (9/10 : ℚ))
        ((6/10 : ℚ), (5/10 : ℚ)) defaultJoints) m = dlookup defaultJoints m) ∧
    waveWristAmpX < waveElbowAmpY ∧ waveElbowAmpY < waveWristAmpY ∧
    waveElbowAmpY = 2/10 ∧ waveWristAmpX = 1/10 ∧ waveWristAmpY = 4/10 :=
  c5_wave_frame (fun x => x) (fun x => x + 1) 3 defaultJoints _ _ rfl rfl

theorem walkFrame_other (sinf : ℚ → ℚ) (piv θ : ℚ) (lk la rk ra lw rw : Pos)
    (j : Joints) (m : String) (h1 : m ≠ "left_knee") (h2 : m ≠ "left_ankle")
    (h3 : m ≠ "right_knee") (h4 : m ≠ "right_ankle") (h5 : m ≠ "left_wrist")
    (h6 : m ≠ "right_wrist") :
    dlookup (walkFrame sinf piv θ lk la rk ra lw rw j) m = dlookup j m := by
  rw [walkFrame, dlookup_update_joint_ne _ _ _ _ h6, dlookup_update_joint_ne _ _ _ _ h5,
    dlookup_update_joint_ne _ _ _ _ h4, dlookup_update_joint_ne _ _ _ _ h3,
    dlookup_update_joint_ne _ _ _ _ h2, dlookup_update_joint_ne _ _ _ _ h1]

theorem keys_walkFrame (sinf : ℚ → ℚ) (piv θ : ℚ) (lk la rk ra lw rw : Pos)
    (j : Joints) :
    keys (walkFrame sinf piv θ lk la rk ra lw rw j) = keys j := by
  rw [walkFrame, keys_update_joint, keys_update_joint, keys_update_joint,
    keys_update_joint, keys_update_joint, keys_update_joint]

theorem wave_fold_preserves (sinf cosf : ℚ → ℚ) (oe ow : Pos) (angles : List ℚ)
    (j acc : Joints)
    (hinv : ∀ m, m ≠ "right_elbow" → m ≠ "right_wrist" → dlookup acc m = dlookup j m) :
    ∀ m, m ≠ "right_elbow" → m ≠ "right_wrist" →
      dlookup (angles.foldl (fun a θ => waveFrame sinf cosf θ oe ow a) acc) m
        = dlookup j m := by
  induction angles generalizing acc with
  | nil => exact hinv
  | cons θ rest ih =>
    intro m h1 h2
    exact ih (waveFrame sinf cosf θ oe ow acc)
      (fun m2 g1 g2 => (waveFrame_other sinf cosf θ oe ow acc m2 g1 g2).trans
        (hinv m2 g1 g2)) m h1 h2

theorem walk_fold_preserves (sinf : ℚ → ℚ) (piv : ℚ) (lk la rk ra lw rw : Pos)
    (angles : List ℚ) (j acc : Joints)
    (hinv : ∀ m, m ≠ "left_knee" → m ≠ "left_ankle" → m ≠ "right_knee" →
      m ≠ "right_ankle" → m ≠ "left_wrist" → m ≠ "right_wrist" →
      dlookup acc m = dlookup j m) :
    ∀ m, m ≠ "left_knee" → m ≠ "left_ankle" → m ≠ "right_knee" →
      m ≠ "right_ankle" → m ≠ "left_wrist" → m ≠ "right_wrist" →
      dlookup (angles.foldl (fun a θ => walkFrame sinf piv θ lk la rk ra lw rw a) acc) m
        = dlookup j m := by
  induction angles generalizing acc with
  | nil => exact hinv
  | cons θ rest ih =>
    intro m h1 h2 h3 h4 h5 h6
    exact ih (walkFrame sinf piv θ lk la rk ra lw rw acc)
      (fun m2 g1 g2 g3 g4 g5 g6 =>
        (walkFrame_other sinf piv θ lk la rk ra lw rw acc m2 g1 g2 g3 g4 g5 g6).trans
          (hinv m2 g1 g2 g3 g4 g5 g6)) m h1 h2 h3 h4 h5 h6

/-- C9: a wave or walk animation run captures the original positions of
its animated joints before the frame loop and restores them afterwards,
so the joint dictionary the call returns agrees with the pre-animation
dictionary at every joint, for any frame count. -/
theorem c9_restore_originals (sinf cosf : ℚ → ℚ) (piv : ℚ) (framesW framesK : ℕ)
    (j : Joints) (lk la rk ra le lw re rw : Pos)
    (hlk : dlookup j "left_knee" = some lk) (hla : dlookup j "left_ankle" = some la)
    (hrk : dlookup j "right_knee" = some rk) (hra : dlookup j "right_ankle" = some ra)
    (hle : dlookup j "left_elbow" = some le) (hlw : dlookup j "left_wrist" = some lw)
    (hre : dlookup j "right_elbow" = some re) (hrw : dlookup j "right_wrist" = some rw) :
    (∃ j2, animate_wave sinf cosf piv framesW j = some j2 ∧
      ∀ m, dlookup j2 m = dlookup j m) ∧
    (∃ j2, animate_walk sinf piv framesK j = some j2 ∧
      ∀ m, dlookup j2 m = dlookup j m) := by
  constructor
  · refine ⟨dictSet (dictSet ((frame_angles piv framesW).foldl
      (fun acc θ => waveFrame sinf cosf θ re rw acc) j) "right_elbow" re)
      "right_wrist" rw, ?_, ?_⟩
    · rw [animate_wave, hre, hrw]
    · intro m
      by_cases h2 : m = "right_wrist"
      · subst h2
        rw [dlookup_dictSet_self, hrw]
      · rw [dlookup_dictSet_ne _ _ _ _ h2]
        by_cases h1 : m = "right_elbow"
        · subst h1
          rw [dlookup_dictSet_self, hre]
        · rw [dlookup_dictSet_ne _ _ _ _ h1]
          exact wave_fold_preserves sinf cosf re rw (frame_angles piv framesW) j j
            (fun _ _ _ => rfl) m h1 h2
  · refine ⟨dictSet (dictSet (dictSet (dictSet (dictSet (dictSet (dictSet (dictSet
      ((frame_angles piv framesK).foldl
        (fun acc θ => walkFrame sinf piv θ lk la rk ra lw rw acc) j)
      "left_knee" lk) "left_ankle" la) "right_knee" rk) "right_ankle" ra)
      "left_elbow" le) "left_wrist" lw) "right_elbow" re) "right_wrist" rw, ?_, ?_⟩
    · rw [animate_walk, hlk, hla, hrk, hra, hle, hlw, hre, hrw]
    · intro m
      by_cases g8 : m = "right_wrist"
      · subst g8; rw [dlookup_dictSet_self, hrw]
      · rw [dlookup_dictSet_ne _ _ _ _ g8]
        by_cases g7 : m = "right_elbow"
        · subst g7; rw [dlookup_dictSet_self, hre]
        · rw [dlookup_dictSet_ne _ _ _ _ g7]
          by_cases g6 : m = "left_wrist"
          · subst g6; rw [dlookup_dictSet_self, hlw]
          · rw [dlookup_dictSet_ne _ _ _ _ g6]
            by_cases g5 : m = "left_elbow"
            · subst g5; rw [dlookup_dictSet_self, hle]
            · rw [dlookup_dictSet_ne _ _ _ _ g5]
              by_cases g4 : m = "right_ankle"
              · subst g4; rw [dlookup_dictSet_self, hra]
              · rw [dlookup_dictSet_ne _ _ _ _ g4]
                by_cases g3 : m = "right_knee"
                · subst g3; rw [dlookup_dictSet_self, hrk]
                · rw [dlookup_dictSet_ne _ _ _ _ g3]
                  by_cases g2 : m = "left_ankle"
                  · subst g2; rw [dlookup_dictSet_self, hla]
                  · rw [dlookup_dictSet_ne _ _ _ _ g2]
                    by_cases g1 : m = "left_knee"
                    · subst g1; rw [dlookup_dictSet_self, hlk]
                    · rw [dlookup_dictSet_ne _ _ _ _ g1]
                      exact walk_fold_preserves sinf piv lk la rk ra lw rw
                        (frame_angles piv framesK) j j
                        (fun _ _ _ _ _ _ _ => rfl) m g1 g2 g3 g4 g6 g8

/-- Witness for C9: the default figure run through both animations for
two frames with concrete stand-ins for the external trigonometry. -/
theorem c9_restore_originals_witness :
    (∃ j2, animate_wave (fun x => x) (fun x => x + 1) 3 2 defaultJoints = some j2 ∧
      ∀ m, dlookup j2 m = dlookup defaultJoints m) ∧
    (∃ j2, animate_walk (fun x => x) 3 2 defaultJoints = some j2 ∧
      ∀ m, dlookup j2 m = dlookup defaultJoints m) :=
  c9_restore_originals (fun x => x) (fun x => x + 1) 3 2 2 defaultJoints
    _ _ _ _ _ _ _ _ rfl rfl rfl rfl rfl rfl rfl rfl

theorem apply_gravity_keys (names : List String) (vels v2 : Joints)
    (h : apply_gravity names vels = some v2) : keys v2 = keys vels := by
  induction names generalizing vels with
  | nil =>
    rw [apply_gravity] at h
    rw [← Option.some.inj h]
  | cons n rest ih =>
    cases hv : dlookup vels n with
    | none => simp [apply_gravity, hv] at h
    | some v =>
      simp only [apply_gravity, hv] at h
      have hn : n ∈ keys vels := (dlookup_isSome_iff_mem vels n).mp (by rw [hv]; rfl)
      rw [ih _ h, keys_dictSet_of_mem vels n _ hn]

theorem integrate_positions_keys (joints vels j2 : Joints)
    (h : integrate_positions joints vels = some j2) : keys j2 = keys joints := by
  induction joints generalizing j2 with
  | nil =>
    rw [integrate_positions] at h
    rw [← Option.some.inj h]
  | cons np rest ih =>
    obtain ⟨n, p⟩ := np
    cases hv : dlookup vels n with
    | none => simp [integrate_positions, hv] at h
    | some v =>
      cases hr : integrate_positions rest vels with
      | none => simp [integrate_positions, hv, hr] at h
      | some r =>
        simp only [integrate_positions, hv, hr] at h
        rw [← Option.some.inj h, keys_cons, keys_cons, ih r hr]

theorem apply_constraint_keys (joints vels : Joints) (n : String) (c : Constraint)
    (jv : Joints × Joints) (h : apply_constraint joints vels n c = some jv) :
    keys jv.1 = keys joints ∧ keys jv.2 = keys vels := by
  cases hp : dlookup joints n with
  | none => simp [apply_constraint, hp] at h
  | some p =>
    have hn : n ∈ keys joints := (dlookup_isSome_iff_mem joints n).mp (by rw [hp]; rfl)
    cases hmin : c.y_min with
    | some ym =>
      by_cases hlt : p.2 < ym
      · cases hv : dlookup vels n with
        | none => simp [apply_constraint, hp, hmin, hlt, hv] at h
        | some v =>
          have hnv : n ∈ keys vels := (dlookup_isSome_iff_mem vels n).mp (by rw [hv]; rfl)
          simp only [apply_constraint, hp, hmin, if_pos hlt, hv] at h
          rw [← Option.some.inj h]
          exact ⟨keys_dictSet_of_mem joints n _ hn, keys_dictSet_of_mem vels n _ hnv⟩
      · simp only [apply_constraint, hp, hmin, if_neg hlt] at h
        rw [← Option.some.inj h]
        exact ⟨keys_dictSet_of_mem joints n _ hn, rfl⟩
    | none =>
      simp only [apply_constraint, hp, hmin] at h
      rw [← Option.some.inj h]
      exact ⟨keys_dictSet_of_mem joints n _ hn, rfl⟩

theorem apply_constraints_keys (cs : List (String × Constraint)) (joints vels : Joints)
    (jv : Joints × Joints) (h : apply_constraints cs joints vels = some jv) :
    keys jv.1 = keys joints ∧ keys jv.2 = keys vels := by
  induction cs generalizing joints vels with
  | nil =>
    rw [apply_constraints] at h
    rw [← Option.some.inj h]
    exact ⟨rfl, rfl⟩
  | cons nc rest ih =>
    obtain ⟨n, c⟩ := nc
    cases happ : apply_constraint joints vels n c with
    | none => simp [apply_constraints, happ] at h
    | some jv1 =>
      simp only [apply_constraints, happ] at h
      obtain ⟨e1, e2⟩ := apply_constraint_keys joints vels n c jv1 happ
      obtain ⟨f1, f2⟩ := ih jv1.1 jv1.2 h
      exact ⟨f1.trans e1, f2.trans e2⟩

theorem physics_update_keys (cs : List (String × Constraint)) (joints vels : Joints)
    (jv : Joints × Joints) (h : physics_update cs joints vels = some jv) :
    keys jv.1 = keys joints ∧ keys jv.2 = keys vels := by
  cases hg : apply_gravity (keys joints) vels with
  | none => simp [physics_update, hg] at h
  | some v1 =>
    cases hint : integrate_positions joints v1 with
    | none => simp [physics_update, hg, hint] at h
    | some j1 =>
      simp only [physics_update, hg, hint] at h
      obtain ⟨e1, e2⟩ := apply_constraints_keys cs j1 v1 jv h
      exact ⟨e1.trans (integrate_positions_keys joints v1 j1 hint),
        e2.trans (apply_gravity_keys (keys joints) vels v1 hg)⟩

theorem wave_fold_keys (sinf cosf : ℚ → ℚ) (oe ow : Pos) (angles : List ℚ)
    (acc : Joints) :
    keys (angles.foldl (fun a θ => waveFrame sinf cosf θ oe ow a) acc) = keys acc := by
  induction angles generalizing acc with
  | nil => rfl
  | cons θ rest ih =>
    rw [List.foldl_cons, ih (waveFrame sinf cosf θ oe ow acc), keys_waveFrame]

theorem walk_fold_keys (sinf : ℚ → ℚ) (piv : ℚ) (lk la rk ra lw rw : Pos)
    (angles : List ℚ) (acc : Joints) :
    keys (angles.foldl (fun a θ => walkFrame sinf piv θ lk la rk ra lw rw a) acc)
      = keys acc := by
  induction angles generalizing acc with
  | nil => rfl
  | cons θ rest ih =>
    rw [List.foldl_cons, ih (walkFrame sinf piv θ lk la rk ra lw rw acc), keys_walkFrame]

theorem keys_dictSet_preserve {α : Type} (X : List (String × α)) (base : List String)
    (n : String) (v : α) (h : keys X = base) (hn : n ∈ base) :
    keys (dictSet X n v) = base := by
  have hm : n ∈ keys X := by rw [h]; exact hn
  rw [keys_dictSet_of_mem X n v hm, h]

theorem animate_wave_keys (sinf cosf : ℚ → ℚ) (piv : ℚ) (frames : ℕ) (j j2 : Joints)
    (h : animate_wave sinf cosf piv frames j = some j2) : keys j2 = keys j := by
  cases hre : dlookup j "right_elbow" with
  | none => simp [animate_wave, hre] at h
  | some oe =>
    cases hrw : dlookup j "right_wrist" with
    | none => simp [animate_wave, hre, hrw] at h
    | some ow =>
      simp only [animate_wave, hre, hrw] at h
      rw [← Option.some.inj h]
      have hkf : keys ((frame_angles piv frames).foldl
          (fun acc θ => waveFrame sinf cosf θ oe ow acc) j) = keys j :=
        wave_fold_keys sinf cosf oe ow (frame_angles piv frames) j
      have me : ("right_elbow" : String) ∈ keys j :=
        (dlookup_isSome_iff_mem j "right_elbow").mp (by rw [hre]; rfl)
      have mw : ("right_wrist" : String) ∈ keys j :=
        (dlookup_isSome_iff_mem j "right_wrist").mp (by rw [hrw]; rfl)
      exact keys_dictSet_preserve _ _ _ _
        (keys_dictSet_preserve _ _ _ _ hkf me) mw

theorem animate_walk_keys (sinf : ℚ → ℚ) (piv : ℚ) (frames : ℕ) (j j2 : Joints)
    (h : animate_walk sinf piv frames j = some j2) : keys j2 = keys j := by
  cases hlk : dlookup j "left_knee" with
  | none => simp [animate_walk, hlk] at h
  | some lk =>
  cases hla : dlookup j "left_ankle" with
  | none => simp [animate_walk, hlk, hla] at h
  | some la =>
  cases hrk : dlookup j "right_knee" with
  | none => simp [animate_walk, hlk, hla, hrk] at h
  | some rk =>
  cases hra : dlookup j "right_ankle" with
  | none => simp [animate_walk, hlk, hla, hrk, hra] at h
  | some ra =>
  cases hle : dlookup j "left_elbow" with
  | none => simp [animate_walk, hlk, hla, hrk, hra, hle] at h
  | some le =>
  cases hlw : dlookup j "left_wrist" with
  | none => simp [animate_walk, hlk, hla, hrk, hra, hle, hlw] at h
  | some lw =>
  cases hre : dlookup j "right_elbow" with
  | none => simp [animate_walk, hlk, hla, hrk, hra, hle, hlw, hre] at h
  | some re =>
  cases hrw : dlookup j "right_wrist" with
  | none => simp [animate_walk, hlk, hla, hrk, hra, hle, hlw, hre, hrw] at h
  | some rw2 =>
    simp only [animate_walk, hlk, hla, hrk, hra, hle, hlw, hre, hrw] at h
    rw [← Option.some.inj h]
    have hkf : keys ((frame_angles piv frames).foldl
        (fun acc θ => walkFrame sinf piv θ lk la rk ra lw rw2 acc) j) = keys j :=
      walk_fold_keys sinf piv lk la rk ra lw rw2 (frame_angles piv frames) j
    have m1 : ("left_knee" : String) ∈ keys j :=
      (dlookup_isSome_iff_mem j "left_knee").mp (by rw [hlk]; rfl)
    have m2 : ("left_ankle" : String) ∈ keys j :=
      (dlookup_isSome_iff_mem j "left_ankle").mp (by rw [hla]; rfl)
    have m3 : ("right_knee" : String) ∈ keys j :=
      (dlookup_isSome_iff_mem j "right_knee").mp (by rw [hrk]; rfl)
    have m4 : ("right_ankle" : String) ∈ keys j :=
      (dlookup_isSome_iff_mem j "right_ankle").mp (by rw [hra]; rfl)
    have m5 : ("left_elbow" : String) ∈ keys j :=
      (dlookup_isSome_iff_mem j "left_elbow").mp (by rw [hle]; rfl)
    have m6 : ("left_wrist" : String) ∈ keys j :=
      (dlookup_isSome_iff_mem j "left_wrist").mp (by rw [hlw]; rfl)
    have m7 : ("right_elbow" : String) ∈ keys j :=
      (dlookup_isSome_iff_mem j "right_elbow").mp (by rw [hre]; rfl)
    have m8 : ("right_wrist" : String) ∈ keys j :=
      (dlookup_isSome_iff_mem j "right_wrist").mp (by rw [hrw]; rfl)
    exact keys_dictSet_preserve _ _ _ _ (keys_dictSet_preserve _ _ _ _
      (keys_dictSet_preserve _ _ _ _ (keys_dictSet_preserve _ _ _ _
        (keys_dictSet_preserve _ _ _ _ (keys_dictSet_preserve _ _ _ _
          (keys_dictSet_preserve _ _ _ _ (keys_dictSet_preserve _ _ _ _ hkf m1)
            m2) m3) m4) m5) m6) m7) m8

theorem load_pose_keys (d : JVal) (J : List (String × (JVal × JVal)))
    (h : load_pose d = some J)
    (hsub : ∀ n ∈ recordJointNames d, n ∈ keys defaultJoints) :
    keys J = keys defaultJoints := by
  have hkd : keys jdefaultJoints = keys defaultJoints := keys_map_pair _ _
  cases d with
  | obj fields =>
    cases hj : dlookup fields "joints" with
    | none => simp [load_pose, hj] at h
    | some v =>
      cases v with
      | obj items =>
        simp only [load_pose, hj] at h
        have hnames : ∀ n ∈ keys items, n ∈ keys jdefaultJoints := by
          intro n hn
          rw [hkd]
          refine hsub n ?_
          simp only [recordJointNames, hj]
          exact hn
        rw [load_items_keys items jdefaultJoints J h hnames, hkd]
      | num q => simp [load_pose, hj] at h
      | str s => simp [load_pose, hj] at h
      | bool b => simp [load_pose, hj] at h
      | null => simp [load_pose, hj] at h
      | arr l => simp [load_pose, hj] at h
  | num q => simp [load_pose] at h
  | str s => simp [load_pose] at h
  | bool b => simp [load_pose] at h
  | null => simp [load_pose] at h
  | arr l => simp [load_pose] at h

/-- Counterexample for C8: loading a record that names the unknown joint
tail succeeds and appends a sixteenth joint, so the serializer load
does not preserve the 15-name key set for every record. -/
theorem c8_counterexample :
    keysAfterLoad (JVal.obj [("joints", JVal.obj [("tail",
        JVal.obj [("x", JVal.num 0), ("y", JVal.num 0)])])])
      = some (keys defaultJoints ++ ["tail"]) ∧
    "tail" ∉ keys defaultJoints :=
  ⟨rfl, by decide⟩

/-- C8 amended: joint update, the wave and walk frame updates and full
animation runs, and the physics step all preserve the joint key set
exactly; the serializer load yields the default 15-name key set
whenever every joint name of the record is a default name (as in any
record produced by save), while an unknown name in a record is appended
as a new joint. -/
theorem c8_key_stability :
    (∀ (j : Joints) (n : String) (pos : Pos),
      keys (update_joint j n pos) = keys j) ∧
    (∀ (sinf cosf : ℚ → ℚ) (θ : ℚ) (oe ow : Pos) (j : Joints),
      keys (waveFrame sinf cosf θ oe ow j) = keys j) ∧
    (∀ (sinf : ℚ → ℚ) (piv θ : ℚ) (lk la rk ra lw rw : Pos) (j : Joints),
      keys (walkFrame sinf piv θ lk la rk ra lw rw j) = keys j) ∧
    (∀ (sinf cosf : ℚ → ℚ) (piv : ℚ) (frames : ℕ) (j j2 : Joints),
      animate_wave sinf cosf piv frames j = some j2 → keys j2 = keys j) ∧
    (∀ (sinf : ℚ → ℚ) (piv : ℚ) (frames : ℕ) (j j2 : Joints),
      animate_walk sinf piv frames j = some j2 → keys j2 = keys j) ∧
    (∀ (cs : List (String × Constraint)) (joints vels : Joints) (jv : Joints × Joints),
      physics_update cs joints vels = some jv →
      keys jv.1 = keys joints ∧ keys jv.2 = keys vels) ∧
    (∀ (d : JVal) (J : List (String × (JVal × JVal))), load_pose d = some J →
      (∀ n ∈ recordJointNames d, n ∈ keys defaultJoints) →
      keys J = keys defaultJoints) :=
  ⟨keys_update_joint, keys_waveFrame, keys_walkFrame, animate_wave_keys,
    animate_walk_keys, physics_update_keys, load_pose_keys⟩

/-- Witness for the amended C8: loading a record that moves the head
keeps exactly the default key set. -/
theorem c8_key_stability_witness :
    keys (dictSet jdefaultJoints "head" (JVal.num 1, JVal.num 2))
      = keys defaultJoints :=
  c8_key_stability.2.2.2.2.2.2 (JVal.obj [("joints", JVal.obj [("head",
    JVal.obj [("x", JVal.num 1), ("y", JVal.num 2)])])]) _ rfl (by decide)

end StickFig
